import Mathlib

/-!
# ScillyScope: verification of the note-lifecycle and playback engine

A shallow embedding of the core logic of the ScillyScope browser keyboard
toy (`keyboard.js`, `audio.js`, `playRecord.js`): keyboard construction
with its label pool, the frequency mapper, the note-voice manager with its
shared playback state, the label resolver, the playback scheduler for
melodies and recordings, and the matcher that compares a recording against
a melody.  Times are modelled as exact rationals (the JavaScript values
0.5, 1.0 and the millisecond sums are all exactly representable), and
frequencies in the voice-manager state as rationals; the equal-temperament
frequency formula is modelled over the reals.
-/

namespace ScillyScope

/-! ## Characters: JavaScript trim and toUpperCase on single characters

Key labels and melody entries are single characters.  `String.prototype.trim`
removes JavaScript WhiteSpace and LineTerminator code points; on a
one-character string the result is either empty or the character itself.
`charTrim` returns `none` exactly when trim would yield the empty string.
Note that U+2423 (OPEN BOX, the visible space glyph) is *not* JavaScript
whitespace, so `charTrim '␣' = some '␣'`. -/

def jsWhitespace : List Char :=
  ['\t', '\n', '\x0b', '\x0c', '\r', ' ',
   Char.ofNat 0xa0, Char.ofNat 0x1680,
   Char.ofNat 0x2000, Char.ofNat 0x2001, Char.ofNat 0x2002,
   Char.ofNat 0x2003, Char.ofNat 0x2004, Char.ofNat 0x2005,
   Char.ofNat 0x2006, Char.ofNat 0x2007, Char.ofNat 0x2008,
   Char.ofNat 0x2009, Char.ofNat 0x200a, Char.ofNat 0x202f,
   Char.ofNat 0x205f, Char.ofNat 0x3000,
   Char.ofNat 0x2028, Char.ofNat 0x2029, Char.ofNat 0xfeff]

def charTrim (c : Char) : Option Char :=
  if c ∈ jsWhitespace then none else some c

/-! ## Keyboard construction (`createKeyboard` in keyboard.js)

White notes C..B per octave, with black keys after C, D, F, G, A.  The
range runs from A2 to B4.  Visible labels are drawn in construction order
from a pool of the 26 capital letters followed by one U+2423 glyph. -/

structure Key where
  note : String
  label : Char
deriving DecidableEq, Repr

def whiteNotes : List String := ["C", "D", "E", "F", "G", "A", "B"]

def blackMap : String → Option String
  | "C" => some "C#"
  | "D" => some "D#"
  | "F" => some "F#"
  | "G" => some "G#"
  | "A" => some "A#"
  | _ => none

def startOctave : Nat := 2
def endOctave : Nat := 4
def startNoteName : String := "A"
def endNoteName : String := "B"

def labelPool : List Char :=
  "ABCDEFGHIJKLMNOPQRSTUVWXYZ".toList ++ ['␣']

/-- The skip conditions of the construction loop: notes before A2 and
after B4 are not built. -/
def skipKey (octave : Nat) (note : String) : Bool :=
  (octave == startOctave &&
    whiteNotes.indexOf note < whiteNotes.indexOf startNoteName) ||
  (octave == endOctave &&
    whiteNotes.indexOf note > whiteNotes.indexOf endNoteName)

/-- `labelPool[labelIndex] || '␣'` -/
def poolLabel (labelIndex : Nat) : Char :=
  (labelPool.get? labelIndex).getD '␣'

/-- The keys built for one white note (white key, then its black key when
`blackMap` has one), together with the advanced label index. -/
def keysForNote (octave : Nat) (note : String) (labelIndex : Nat) :
    List Key × Nat :=
  let whiteKey : Key := ⟨note ++ toString octave, poolLabel labelIndex⟩
  match blackMap note with
  | some blackNote =>
      ([whiteKey, ⟨blackNote ++ toString octave, poolLabel (labelIndex + 1)⟩],
       labelIndex + 2)
  | none => ([whiteKey], labelIndex + 1)

/-- The construction loop over (octave, white-note) pairs, threading the
label index. -/
def createKeyboardAux : List (Nat × String) → Nat → List Key
  | [], _ => []
  | (octave, note) :: rest, labelIndex =>
      if skipKey octave note then createKeyboardAux rest labelIndex
      else
        let built := keysForNote octave note labelIndex
        built.1 ++ createKeyboardAux rest built.2

/-- All (octave, white-note) pairs visited by the nested loops, in order. -/
def keyboardIter : List (Nat × String) :=
  ((List.range (endOctave - startOctave + 1)).map (· + startOctave)).flatMap
    (fun o => whiteNotes.map (fun n => (o, n)))

/-- The keyboard: the 27 keys from A2 to B4 in construction order, each
carrying its visible label. -/
def keyboardKeys : List Key := createKeyboardAux keyboardIter 0

/-! ## The label→note map (fallback map in `playRecording`)

Built from the keyboard keys: for each key, the trimmed upper-cased label
maps to the key's `data-note`; empty labels or notes are skipped; later
assignments overwrite earlier ones. -/

def buildLabelMap (keys : List Key) : List (Char × String) :=
  keys.filterMap (fun k =>
    match charTrim k.label with
    | none => none
    | some c => if k.note = "" then none else some (c.toUpper, k.note))

/-- Object-property lookup with last-write-wins semantics. -/
def mapLookup (entries : List (Char × String)) (c : Char) : Option String :=
  (entries.reverse.find? (fun e => e.1 == c)).map Prod.snd

def labelMap : List (Char × String) := buildLabelMap keyboardKeys

/-! ## Frequency mapper (`getFrequency` in keyboard.js) -/

/-- The sharp spelling of a natural pitch class. -/
def sharp (s : String) : String := s ++ "#"

/-- The chromatic order used by `getFrequency`:
C, C#, D, D#, E, F, F#, G, G#, A, A#, B. -/
def noteOrder : List String :=
  ["C", sharp "C", "D", sharp "D", "E", "F",
   sharp "F", "G", sharp "G", "A", sharp "A", "B"]

/-- `noteOrder.indexOf(note)`: the chromatic index, `-1` when absent. -/
def noteIndex (note : String) : Int :=
  match noteOrder.indexOf? note with
  | some i => (i : Int)
  | none => -1

def keyNumber (note : String) (octave : Nat) : Int :=
  noteIndex note + octave * 12

noncomputable def getFrequency (note : String) (octave : Nat) : ℝ :=
  440 * (2 : ℝ) ^ ((((keyNumber note octave : ℤ) : ℝ) - 57) / 12)

/-! ## Label resolver (`resolveNoteFromLabel` in keyboard.js)

Finds the keys whose trimmed upper-cased visible label equals the trimmed
upper-cased wanted label; prefers a match whose note ends in the preferred
octave when one is given; otherwise the first match in construction
order. -/

def keyLabelNorm (k : Key) : Option Char := (charTrim k.label).map Char.toUpper

def resolveNoteFromLabel (label : Char) (preferredOctave : Option Nat) :
    Option String :=
  let wanted := (charTrim label).map Char.toUpper
  let foundKeys := keyboardKeys.filter (fun k => keyLabelNorm k == wanted)
  match foundKeys with
  | [] => none
  | el :: _ =>
      match preferredOctave with
      | some o =>
          match foundKeys.find? (fun k => k.note.endsWith (toString o)) with
          | some k => some k.note
          | none => some el.note
      | none => some el.note

/-! ## Matcher (tail of `playRecording` in playRecord.js)

`sameLength && expected.every((n, i) => n === actual[i])`. -/

def seqAllMatch (expected actual : List String) : Bool :=
  (expected.length == actual.length) &&
  ((expected.zip actual).all fun p => p.1 == p.2)

def playbackOutcome (expected actual : List String) : String :=
  if seqAllMatch expected actual then "success!" else "fail!"

/-- One melody character of the expected side:
`label ? (map[label] || null) : null` with `label = ch.trim().toUpperCase()`. -/
def resolveExpectedChar (ch : Char) : Option String :=
  match charTrim ch with
  | none => none
  | some c =>
      match mapLookup labelMap c.toUpper with
      | none => none
      | some n => if n = "" then none else some n

/-- The expected identifier sequence: resolve every melody character and
`filter(Boolean)`. -/
def expectedSeq (melody : List Char) : List String :=
  (melody.map resolveExpectedChar).reduceOption

/-! ## Recorder entries (`recordKeyPresses` in playRecord.js) -/

structure RecEntry where
  note : Option String
  label : Char
deriving DecidableEq, Repr

/-- The entry `recordKeyPresses` appends for a press on key `k`:
`note = dataset.note || null`, `label = textContent`. -/
def pressEntry (k : Key) : RecEntry :=
  ⟨if k.note = "" then none else some k.note, k.label⟩

/-- The actual side of the match:
`(e && e.note) ? e.note : String(e || '')` — an object entry without a
truthy note stringifies to its object representation. -/
def entryToActual (e : RecEntry) : String :=
  match e.note with
  | some n => if n = "" then "[object Object]" else n
  | none => "[object Object]"

/-! ## Playback scheduling (`playMelody` and `playRecording`)

Scheduled events are modelled as (millisecond offset, note) pairs, exactly
the arguments handed to `setTimeout`; the running time offset is kept in
seconds as in the source and multiplied by 1000 at each schedule point. -/

def DEFAULT_NOTE_DURATION : ℚ := 1/2
def LAST_NOTE_DURATION : ℚ := 1
def NOTE_RELEASE : ℚ := 1/2

/-- Events scheduled by one playback run, plus the guard-flag values. -/
structure Sched where
  ran : Bool
  starts : List (ℚ × String)
  stops : List (ℚ × String)
  completionMs : Option ℚ
  /-- guard flag right after the call returns -/
  flagDuring : Bool
  /-- guard flag after the completion action (if any) has run -/
  flagAfter : Bool
  /-- the value handed to the callback by the completion action, if any -/
  callbackArg : Option String
deriving DecidableEq, Repr

/-- The per-character loop of `playMelody`: returns scheduled starts,
stops, and the final running offset (seconds). -/
def melodyLoop : List Char → Nat → Nat → ℚ →
    List (ℚ × String) × List (ℚ × String) × ℚ
  | [], _, _, t => ([], [], t)
  | ch :: rest, idx, total, t =>
      let duration :=
        if idx = total - 1 then LAST_NOTE_DURATION else DEFAULT_NOTE_DURATION
      match (charTrim ch).map Char.toUpper with
      | none => melodyLoop rest (idx + 1) total (t + duration)
      | some label =>
          match resolveNoteFromLabel label none with
          | none => melodyLoop rest (idx + 1) total (t + duration)
          | some dataNote =>
              let out := melodyLoop rest (idx + 1) total (t + duration)
              ((t * 1000, dataNote) :: out.1,
               ((t + duration) * 1000, dataNote) :: out.2.1,
               out.2.2)

def playMelody (melody : List Char) (isPlaying : Bool) : Sched :=
  if isPlaying then ⟨false, [], [], none, isPlaying, isPlaying, none⟩
  else if melody.length = 0 then
    ⟨false, [], [], none, isPlaying, isPlaying, none⟩
  else
    let out := melodyLoop melody 0 melody.length 0
    let totalMs := (out.2.2 + NOTE_RELEASE) * 1000
    -- the completion action sets `isPlaying = false`
    ⟨true, out.1, out.2.1, some totalMs, true, false, none⟩

/-- The per-entry loop of `playRecording`:
`const note = entry && entry.note ? entry.note : (entry || null)` — for the
record-shaped entries produced by the Recorder the fallback is the (truthy)
entry object itself, which later stringifies to "[object Object]". -/
def recordingLoop : List RecEntry → Nat → Nat → ℚ →
    List (ℚ × String) × List (ℚ × String) × ℚ
  | [], _, _, t => ([], [], t)
  | e :: rest, idx, total, t =>
      let duration :=
        if idx = total - 1 then LAST_NOTE_DURATION else DEFAULT_NOTE_DURATION
      let note := entryToActual e
      let out := recordingLoop rest (idx + 1) total (t + duration)
      ((t * 1000, note) :: out.1,
       ((t + duration) * 1000, note) :: out.2.1,
       out.2.2)

def playRecording (melody : List Char) (recorded : List RecEntry)
    (isPlayingRecorded : Bool) : Sched :=
  if recorded.length = 0 then
    ⟨false, [], [], none, isPlayingRecorded, isPlayingRecorded, none⟩
  else if isPlayingRecorded then
    ⟨false, [], [], none, isPlayingRecorded, isPlayingRecorded, none⟩
  else
    let out := recordingLoop recorded 0 recorded.length 0
    let totalMs := (out.2.2 + NOTE_RELEASE) * 1000
    let expected := expectedSeq melody
    let actual := recorded.map entryToActual
    -- the completion action sets `isPlayingRecorded = false`, then calls
    -- `callback(allMatch ? 'success!' : 'fail!')`
    ⟨true, out.1, out.2.1, some (totalMs + 100), true, false,
     some (playbackOutcome expected actual)⟩

/-! ## Note voice manager (`startNote` / `stopNote` in keyboard.js,
`setVars` / `clearVars` in audio.js)

`activeNotes` is a JavaScript object used as a map: property assignment
replaces the value of an existing key in place and appends a new key at
the end; `delete` removes a key.  A voice records the frequency its
oscillator was started at. -/

structure Voice where
  freq : ℚ
deriving DecidableEq, Repr

structure AudioState where
  activeNotes : List (String × Voice)
  targetAmp : ℚ
  currentFreq : Option ℚ
  lastFreq : ℚ
  volume : ℚ
deriving DecidableEq, Repr

/-- JavaScript object property write: replace in place or append. -/
def objSet (m : List (String × Voice)) (k : String) (v : Voice) :
    List (String × Voice) :=
  match m with
  | [] => [(k, v)]
  | (k', v') :: rest =>
      if k' = k then (k, v) :: rest else (k', v') :: objSet rest k v

/-- JavaScript object property read. -/
def objGet (m : List (String × Voice)) (k : String) : Option Voice :=
  (m.find? (fun p => p.1 == k)).map Prod.snd

/-- JavaScript `delete` of a property. -/
def objDelete (m : List (String × Voice)) (k : String) :
    List (String × Voice) :=
  match m with
  | [] => []
  | (k', v') :: rest =>
      if k' = k then rest else (k', v') :: objDelete rest k

def setVars (freq : ℚ) (s : AudioState) : AudioState :=
  { s with currentFreq := some freq, lastFreq := freq, targetAmp := s.volume }

def clearVars (s : AudioState) : AudioState :=
  { s with currentFreq := none, targetAmp := 0 }

def startNote (note : String) (freq : ℚ) (s : AudioState) : AudioState :=
  setVars freq { s with activeNotes := objSet s.activeNotes note ⟨freq⟩ }

def stopNote (note : String) (s : AudioState) : AudioState :=
  match objGet s.activeNotes note with
  | none => s
  | some _ =>
      let s' := { s with activeNotes := objDelete s.activeNotes note }
      if s'.activeNotes.length = 0 then clearVars s' else s'

/-- The operations that touch the voice manager or its shared state. -/
inductive Op where
  | start (note : String) (freq : ℚ)
  | stop (note : String)
  | setVolume (v : ℚ)
deriving DecidableEq, Repr

def applyOp (s : AudioState) : Op → AudioState
  | .start n f => startNote n f s
  | .stop n => stopNote n s
  | .setVolume v => { s with volume := v }

/-- Module-load state: no active notes, `targetAmp = 0`,
`currentFreq = null`, `lastFreq = 0`, `volume = 0.5`. -/
def initState : AudioState := ⟨[], 0, none, 0, 1/2⟩

def runOps (ops : List Op) : AudioState := ops.foldl applyOp initState

/-- Closed form of the running time offset accumulated by a playback loop
over `n` entries: every entry but the last contributes the default
duration, the last contributes the long duration. -/
def accumOffset (n : Nat) : ℚ :=
  if n = 0 then 0
  else ((n : ℚ) - 1) * DEFAULT_NOTE_DURATION + LAST_NOTE_DURATION

/-- The note identifiers of the active-voice map. -/
def keysNodup (m : List (String × Voice)) : Prop := (m.map Prod.fst).Nodup

/-! # Theorems -/

/-! ## Object-map lemmas -/

theorem objGet_objSet (m : List (String × Voice)) (k : String) (v : Voice) :
    objGet (objSet m k v) k = some v := by
  induction m with
  | nil => simp [objSet, objGet]
  | cons p rest ih =>
      obtain ⟨k', v'⟩ := p
      by_cases h : k' = k
      · simp [objSet, objGet, h]
      · simpa [objSet, objGet, h] using ih

theorem filter_key_eq_nil (m : List (String × Voice)) (k : String)
    (h : k ∉ m.map Prod.fst) : m.filter (fun p => p.1 == k) = [] := by
  induction m with
  | nil => simp
  | cons p rest ih =>
      simp only [List.map_cons, List.mem_cons] at h
      push_neg at h
      have hne : ¬(p.1 == k) = true := by
        simp only [beq_iff_eq]
        exact fun hq => h.1 hq.symm
      simp [List.filter_cons, hne, ih h.2]

theorem countKey_objSet (m : List (String × Voice)) (k : String) (v : Voice)
    (h : keysNodup m) :
    ((objSet m k v).filter (fun p => p.1 == k)).length = 1 := by
  induction m with
  | nil => simp [objSet]
  | cons p rest ih =>
      obtain ⟨k', v'⟩ := p
      simp only [keysNodup, List.map_cons, List.nodup_cons] at h
      by_cases hk : k' = k
      · subst hk
        have : rest.filter (fun p => p.1 == k') = [] :=
          filter_key_eq_nil rest k' h.1
        simp [objSet, List.filter_cons, this]
      · have : ¬(k' == k) = true := by simpa using hk
        simp [objSet, hk, List.filter_cons, this, ih h.2]

theorem countKey_le_one (m : List (String × Voice)) (k : String)
    (h : keysNodup m) :
    (m.filter (fun p => p.1 == k)).length ≤ 1 := by
  induction m with
  | nil => simp
  | cons p rest ih =>
      simp only [keysNodup, List.map_cons, List.nodup_cons] at h
      by_cases hk : p.1 = k
      · have : rest.filter (fun q => q.1 == k) = [] := by
          apply filter_key_eq_nil
          rw [hk] at h
          exact h.1
        simp [List.filter_cons, hk, this]
      · have : ¬(p.1 == k) = true := by simpa using hk
        simp [List.filter_cons, this, ih h.2]

theorem keysNodup_objSet (m : List (String × Voice)) (k : String) (v : Voice)
    (h : keysNodup m) : keysNodup (objSet m k v) := by
  induction m with
  | nil => simp [objSet, keysNodup]
  | cons p rest ih =>
      obtain ⟨k', v'⟩ := p
      simp only [keysNodup, List.map_cons, List.nodup_cons] at h
      by_cases hk : k' = k
      · subst hk
        simpa [objSet, keysNodup] using h
      · have hmem : k' ∉ (objSet rest k v).map Prod.fst := by
          have hkeys : ∀ rest' : List (String × Voice),
              (objSet rest' k v).map Prod.fst =
                rest'.map Prod.fst ∨
              (objSet rest' k v).map Prod.fst =
                rest'.map Prod.fst ++ [k] := by
            intro rest'
            induction rest' with
            | nil => simp [objSet]
            | cons q qs ihq =>
                by_cases hq : q.1 = k
                · left
                  simp [objSet, hq]
                · rcases ihq with h1 | h1
                  · left; simp [objSet, hq, h1]
                  · right; simp [objSet, hq, h1]
          rcases hkeys rest with h1 | h1
          · rw [h1]; exact h.1
          · rw [h1]
            simp only [List.mem_append, List.mem_singleton]
            rintro (hc | hc)
            · exact h.1 hc
            · exact hk hc
        simp only [objSet, if_neg hk, keysNodup, List.map_cons,
          List.nodup_cons]
        exact ⟨hmem, ih h.2⟩

theorem objDelete_sublist (m : List (String × Voice)) (k : String) :
    List.Sublist ((objDelete m k).map Prod.fst) (m.map Prod.fst) := by
  induction m with
  | nil => simp [objDelete]
  | cons p rest ih =>
      by_cases hk : p.1 = k
      · simp only [objDelete, if_pos hk, List.map_cons]
        exact List.sublist_cons_self _ _
      · simp only [objDelete, if_neg hk, List.map_cons]
        exact List.Sublist.cons₂ _ ih

theorem keysNodup_objDelete (m : List (String × Voice)) (k : String)
    (h : keysNodup m) : keysNodup (objDelete m k) :=
  List.Nodup.sublist (objDelete_sublist m k) h

/-! ## Matcher lemmas -/

theorem seqAllMatch_iff (expected actual : List String) :
    seqAllMatch expected actual = true ↔ expected = actual := by
  induction expected generalizing actual with
  | nil =>
      cases actual with
      | nil => simp [seqAllMatch]
      | cons y ys => simp [seqAllMatch]
  | cons x xs ih =>
      cases actual with
      | nil => simp [seqAllMatch]
      | cons y ys =>
          have hxs := ih ys
          simp only [seqAllMatch, List.length_cons, List.zip_cons_cons,
            List.all_cons, Bool.and_eq_true, beq_iff_eq,
            Nat.add_right_cancel_iff, List.cons.injEq] at hxs ⊢
          constructor
          · rintro ⟨h1, h2, h3⟩
            exact ⟨h2, hxs.mp ⟨h1, h3⟩⟩
          · rintro ⟨h1, h2⟩
            obtain ⟨h3, h4⟩ := hxs.mpr h2
            exact ⟨h3, h1, h4⟩

theorem playbackOutcome_success_iff (expected actual : List String) :
    playbackOutcome expected actual = "success!" ↔ expected = actual := by
  by_cases h : expected = actual
  · subst h
    have hb : seqAllMatch expected expected = true :=
      (seqAllMatch_iff expected expected).mpr rfl
    simp [playbackOutcome, hb]
  · have hb : seqAllMatch expected actual = false := by
      rcases hb : seqAllMatch expected actual with _ | _
      · rfl
      · exact absurd ((seqAllMatch_iff expected actual).mp hb) h
    have hne : ("fail!" : String) ≠ "success!" := by decide
    simp [playbackOutcome, hb, h, hne]

theorem playbackOutcome_fail_iff (expected actual : List String) :
    playbackOutcome expected actual = "fail!" ↔ expected ≠ actual := by
  by_cases h : expected = actual
  · subst h
    have hb : seqAllMatch expected expected = true :=
      (seqAllMatch_iff expected expected).mpr rfl
    have hne : ("success!" : String) ≠ "fail!" := by decide
    simp [playbackOutcome, hb, hne]
  · have hb : seqAllMatch expected actual = false := by
      rcases hb : seqAllMatch expected actual with _ | _
      · rfl
      · exact absurd ((seqAllMatch_iff expected actual).mp hb) h
    simp [playbackOutcome, hb, h]

/-! ## Per-key facts of the constructed keyboard -/

theorem all_keys_good : ∀ k ∈ keyboardKeys,
    resolveExpectedChar k.label = some k.note ∧
    entryToActual (pressEntry k) = k.note := by decide

theorem expectedSeq_labels (ks : List Key)
    (h : ∀ k ∈ ks, k ∈ keyboardKeys) :
    expectedSeq (ks.map Key.label) = ks.map Key.note := by
  induction ks with
  | nil => rfl
  | cons k rest ih =>
      have hk := all_keys_good k (h k (by simp))
      have hrest := ih (fun x hx => h x (List.mem_cons_of_mem _ hx))
      show ((k.label :: rest.map Key.label).map resolveExpectedChar).reduceOption
        = k.note :: rest.map Key.note
      rw [List.map_cons, hk.1, List.reduceOption_cons_of_some]
      exact congrArg _ hrest

theorem actuals_labels (ks : List Key) (h : ∀ k ∈ ks, k ∈ keyboardKeys) :
    (ks.map pressEntry).map entryToActual = ks.map Key.note := by
  induction ks with
  | nil => rfl
  | cons k rest ih =>
      have hk := all_keys_good k (h k (by simp))
      have hrest := ih (fun x hx => h x (List.mem_cons_of_mem _ hx))
      simp only [List.map_cons, hk.2, hrest]

/-! ## Running-offset lemmas for the playback loops -/

theorem accumOffset_succ (n : Nat) (h : n ≠ 0) :
    DEFAULT_NOTE_DURATION + accumOffset n = accumOffset (n + 1) := by
  rcases n with _ | m
  · exact absurd rfl h
  · simp only [accumOffset, Nat.succ_ne_zero, if_false,
      DEFAULT_NOTE_DURATION, LAST_NOTE_DURATION]
    push_cast
    ring

theorem melodyLoop_cons_offset (ch : Char) (rest : List Char)
    (idx total : Nat) (t : ℚ) :
    (melodyLoop (ch :: rest) idx total t).2.2 =
      (melodyLoop rest (idx + 1) total
        (t + if idx = total - 1 then LAST_NOTE_DURATION
             else DEFAULT_NOTE_DURATION)).2.2 := by
  cases hm : (charTrim ch).map Char.toUpper with
  | none => simp [melodyLoop, hm]
  | some c =>
      cases hr : resolveNoteFromLabel c none with
      | none => simp [melodyLoop, hm, hr]
      | some n => simp [melodyLoop, hm, hr]

theorem melodyLoop_offset :
    ∀ (chars : List Char) (idx total : Nat) (t : ℚ),
      idx + chars.length = total →
      (melodyLoop chars idx total t).2.2 = t + accumOffset chars.length := by
  intro chars
  induction chars with
  | nil => intro idx total t h; simp [melodyLoop, accumOffset]
  | cons ch rest ih =>
      intro idx total t h
      rw [melodyLoop_cons_offset]
      have h' : (idx + 1) + rest.length = total := by
        simp only [List.length_cons] at h; omega
      rw [ih (idx + 1) total _ h']
      by_cases hz : rest.length = 0
      · have hidx : idx = total - 1 := by
          simp only [List.length_cons] at h; omega

        rw [if_pos hidx]
        simp only [hz, List.length_cons, accumOffset]
        norm_num [LAST_NOTE_DURATION]
      · have hidx : ¬idx = total - 1 := by
          simp only [List.length_cons] at h; omega
        rw [if_neg hidx, List.length_cons, ← accumOffset_succ rest.length hz]
        ring

theorem recordingLoop_cons_offset (e : RecEntry) (rest : List RecEntry)
    (idx total : Nat) (t : ℚ) :
    (recordingLoop (e :: rest) idx total t).2.2 =
      (recordingLoop rest (idx + 1) total
        (t + if idx = total - 1 then LAST_NOTE_DURATION
             else DEFAULT_NOTE_DURATION)).2.2 := by
  simp [recordingLoop]

theorem recordingLoop_offset :
    ∀ (entries : List RecEntry) (idx total : Nat) (t : ℚ),
      idx + entries.length = total →
      (recordingLoop entries idx total t).2.2 = t + accumOffset entries.length := by
  intro entries
  induction entries with
  | nil => intro idx total t h; simp [recordingLoop, accumOffset]
  | cons e rest ih =>
      intro idx total t h
      rw [recordingLoop_cons_offset]
      have h' : (idx + 1) + rest.length = total := by
        simp only [List.length_cons] at h; omega
      rw [ih (idx + 1) total _ h']
      by_cases hz : rest.length = 0
      · have hidx : idx = total - 1 := by
          simp only [List.length_cons] at h; omega
        rw [if_pos hidx]
        simp only [hz, List.length_cons, accumOffset]
        norm_num [LAST_NOTE_DURATION]
      · have hidx : ¬idx = total - 1 := by
          simp only [List.length_cons] at h; omega
        rw [if_neg hidx, List.length_cons, ← accumOffset_succ rest.length hz]
        ring

/-! ## State-machine invariant lemmas -/

theorem keysNodup_applyOp (s : AudioState) (op : Op)
    (h : keysNodup s.activeNotes) : keysNodup (applyOp s op).activeNotes := by
  cases op with
  | start n f =>
      simpa [applyOp, startNote, setVars] using keysNodup_objSet _ n _ h
  | stop n =>
      simp only [applyOp, stopNote]
      rcases hg : objGet s.activeNotes n with _ | v
      · simpa using h
      · by_cases he : (objDelete s.activeNotes n).length = 0
        · simpa [he, clearVars] using keysNodup_objDelete _ n h
        · simpa [he] using keysNodup_objDelete _ n h
  | setVolume v => simpa [applyOp] using h

theorem keysNodup_foldl (ops : List Op) :
    ∀ s : AudioState, keysNodup s.activeNotes →
      keysNodup (ops.foldl applyOp s).activeNotes := by
  induction ops with
  | nil => intro s h; simpa using h
  | cons op rest ih => intro s h; exact ih _ (keysNodup_applyOp s op h)

theorem keysNodup_runOps (ops : List Op) :
    keysNodup (runOps ops).activeNotes :=
  keysNodup_foldl ops initState (by simp [initState, keysNodup])

theorem freqInv_applyOp (s : AudioState) (op : Op)
    (h : ∀ f, s.currentFreq = some f → s.lastFreq = f) :
    ∀ f, (applyOp s op).currentFreq = some f → (applyOp s op).lastFreq = f := by
  cases op with
  | start n fr =>
      intro f hf
      simp only [applyOp, startNote, setVars, Option.some.injEq] at hf ⊢
      exact hf
  | stop n =>
      simp only [applyOp, stopNote]
      rcases hg : objGet s.activeNotes n with _ | v
      · simp only [hg]
        exact h
      · simp only [hg]
        by_cases he : (objDelete s.activeNotes n).length = 0
        · simp only [he, if_true, clearVars]
          intro f hf
          simp at hf
        · simp only [he, if_false]
          exact h
  | setVolume v =>
      intro f hf
      simp only [applyOp] at hf ⊢
      exact h f hf

/-! ## Claim theorems -/

/-- C1 counterexample: the melody "A␣B" does *not* yield a two-identifier
expected sequence — the U+2423 glyph is the visible label of key B4, so it
resolves and the expected sequence has three identifiers. -/
theorem expected_seq_rest_glyph_cex :
    expectedSeq ['A', '␣', 'B'] = ["A2", "B4", "A#2"] ∧
    (expectedSeq ['A', '␣', 'B']).length ≠ 2 := by decide

/-- C1 (amended): the expected sequence resolves each melody character's
trimmed upper-cased label through the label→note map and drops the
whitespace-only and unmapped entries; the U+2423 glyph is itself the label
of key B4, so it resolves and contributes an expected identifier, and the
three-character melody "A␣B" yields the three-identifier expected
sequence ["A2", "B4", "A#2"]. -/
theorem expected_seq_rest_glyph :
    mapLookup labelMap '␣' = some "B4" ∧
    expectedSeq ['A', '␣', 'B'] = ["A2", "B4", "A#2"] ∧
    ∀ (ms1 ms2 : List Char) (c : Char), resolveExpectedChar c = none →
      expectedSeq (ms1 ++ c :: ms2) = expectedSeq (ms1 ++ ms2) := by
  refine ⟨by decide, by decide, ?_⟩
  intro ms1 ms2 c hc
  simp only [expectedSeq, List.map_append, List.map_cons]
  rw [List.reduceOption_append, List.reduceOption_append]
  congr 1
  rw [hc, List.reduceOption_cons_of_none]

/-- Witness for C1 (amended): an actual-whitespace melody character is
dropped from the expected sequence. -/
theorem expected_seq_rest_glyph_witness :
    expectedSeq (['A'] ++ ' ' :: ['B']) = expectedSeq (['A'] ++ ['B']) :=
  expected_seq_rest_glyph.2.2 ['A'] ['B'] ' ' (by decide)

/-- C2: playing back a just-recorded non-empty key-press sequence against
the melody made of those same keys' labels always delivers "success!"; and
the Matcher yields "success!" exactly on equal-length pointwise-equal
sequences and "fail!" on any mismatch. -/
theorem record_then_playback_success :
    (∀ ks : List Key, ks ≠ [] → (∀ k ∈ ks, k ∈ keyboardKeys) →
      (playRecording (ks.map Key.label) (ks.map pressEntry) false).callbackArg
        = some "success!") ∧
    (∀ expected actual : List String,
      (playbackOutcome expected actual = "success!" ↔ expected = actual) ∧
      (playbackOutcome expected actual = "fail!" ↔ expected ≠ actual)) := by
  constructor
  · intro ks hne h
    have hlen : ¬(ks.map pressEntry).length = 0 := by
      simp only [List.length_map, List.length_eq_zero]
      exact hne
    simp only [playRecording, if_neg hlen, Bool.false_eq_true, if_false]
    rw [expectedSeq_labels ks h, actuals_labels ks h,
      (playbackOutcome_success_iff (ks.map Key.note) (ks.map Key.note)).mpr rfl]
  · intro expected actual
    exact ⟨playbackOutcome_success_iff expected actual,
      playbackOutcome_fail_iff expected actual⟩

/-- Witness for C2: a single press of the A2 key (label 'A'), played back
against the one-character melody "A". -/
theorem record_then_playback_success_witness :
    (playRecording (([⟨"A2", 'A'⟩] : List Key).map Key.label)
      (([⟨"A2", 'A'⟩] : List Key).map pressEntry) false).callbackArg
      = some "success!" :=
  record_then_playback_success.1 [⟨"A2", 'A'⟩] (by decide) (by decide)

/-- C3 counterexample: for recorded playback of a one-entry recording the
accumulated offset is 1.0 s, so offset + release is 1500 ms, but the
completion timeout is scheduled at 1600 ms (an extra 100 ms). -/
theorem completion_schedule_cex :
    (playRecording ['A'] [⟨some "A2", 'A'⟩] false).completionMs = some 1600 ∧
    (playRecording ['A'] [⟨some "A2", 'A'⟩] false).completionMs ≠
      some ((accumOffset 1 + NOTE_RELEASE) * 1000) := by
  have h : (playRecording ['A'] [⟨some "A2", 'A'⟩] false).completionMs
      = some ((0 + LAST_NOTE_DURATION + NOTE_RELEASE) * 1000 + 100) := by
    simp [playRecording, recordingLoop]
  rw [h]
  norm_num [LAST_NOTE_DURATION, NOTE_RELEASE, accumOffset]

/-- C3 (amended): melody playback schedules its completion at exactly
(offset + release) · 1000 ms and the completion clears the single-flight
guard; recorded playback schedules its completion at
(offset + release) · 1000 + 100 ms, and that completion clears the guard,
then invokes the Matcher and hands its outcome to the callback. -/
theorem completion_schedule :
    (∀ melody : List Char, melody ≠ [] →
      (playMelody melody false).completionMs
        = some ((accumOffset melody.length + NOTE_RELEASE) * 1000) ∧
      (playMelody melody false).flagDuring = true ∧
      (playMelody melody false).flagAfter = false) ∧
    (∀ (melody : List Char) (recorded : List RecEntry), recorded ≠ [] →
      (playRecording melody recorded false).completionMs
        = some ((accumOffset recorded.length + NOTE_RELEASE) * 1000 + 100) ∧
      (playRecording melody recorded false).flagDuring = true ∧
      (playRecording melody recorded false).flagAfter = false ∧
      (playRecording melody recorded false).callbackArg
        = some (playbackOutcome (expectedSeq melody)
            (recorded.map entryToActual))) := by
  constructor
  · intro melody hne
    have hlen : ¬melody.length = 0 := by
      simp only [List.length_eq_zero]
      exact hne
    have hoff := melodyLoop_offset melody 0 melody.length 0 (by omega)
    simp only [playMelody, Bool.false_eq_true, if_false, if_neg hlen]
    rw [hoff]
    norm_num
  · intro melody recorded hne
    have hlen : ¬recorded.length = 0 := by
      simp only [List.length_eq_zero]
      exact hne
    have hoff := recordingLoop_offset recorded 0 recorded.length 0 (by omega)
    simp only [playRecording, Bool.false_eq_true, if_false, if_neg hlen]
    rw [hoff]
    norm_num

/-- Witness for C3 (amended): one-character melody and one-entry recording. -/
theorem completion_schedule_witness :
    (playMelody ['A'] false).completionMs
      = some ((accumOffset (['A'] : List Char).length + NOTE_RELEASE) * 1000) ∧
    (playRecording ['A'] [⟨some "A2", 'A'⟩] false).completionMs
      = some ((accumOffset ([⟨some "A2", 'A'⟩] : List RecEntry).length
          + NOTE_RELEASE) * 1000 + 100) :=
  ⟨(completion_schedule.1 ['A'] (by decide)).1,
   (completion_schedule.2 ['A'] [⟨some "A2", 'A'⟩] (by decide)).1⟩

/-- C4: the two-character melody "AB" (both characters resolvable, to A2
and A#2) schedules exactly two note-start/note-stop pairs: starts at 0 ms
and 500 ms, stops at 500 ms and 1500 ms, completion at 2000 ms. -/
theorem playMelody_AB_schedule :
    playMelody ['A', 'B'] false =
      ⟨true, [(0, "A2"), (500, "A#2")], [(500, "A2"), (1500, "A#2")],
       some 2000, true, false, none⟩ := by
  have hA : (charTrim 'A').map Char.toUpper = some 'A' := by decide
  have hB : (charTrim 'B').map Char.toUpper = some 'B' := by decide
  have hrA : resolveNoteFromLabel 'A' none = some "A2" := by decide
  have hrB : resolveNoteFromLabel 'B' none = some "A#2" := by decide
  simp only [playMelody, melodyLoop, hA, hB, hrA, hrB, Bool.false_eq_true,
    if_false, List.length_cons, List.length_nil]
  norm_num [NOTE_RELEASE, LAST_NOTE_DURATION, DEFAULT_NOTE_DURATION,
    Sched.mk.injEq, Prod.mk.injEq]

/-- C5: the frequency mapper sends A4 to exactly 440 Hz and is strictly
monotone in the key number over valid pitch classes. -/
theorem getFrequency_spec :
    getFrequency "A" 4 = 440 ∧
    ∀ (n1 : String) (o1 : Nat) (n2 : String) (o2 : Nat),
      n1 ∈ noteOrder → n2 ∈ noteOrder →
      keyNumber n1 o1 < keyNumber n2 o2 →
      getFrequency n1 o1 < getFrequency n2 o2 := by
  constructor
  · have h : keyNumber "A" 4 = 57 := by decide
    rw [getFrequency, h]
    have hz : ((((57 : ℤ) : ℝ) - 57) / 12 : ℝ) = 0 := by norm_num
    rw [hz, Real.rpow_zero]
    norm_num
  · intro n1 o1 n2 o2 _ _ hk
    rw [getFrequency, getFrequency]
    apply mul_lt_mul_of_pos_left _ (by norm_num : (0:ℝ) < 440)
    rw [Real.rpow_lt_rpow_left_iff (by norm_num : (1:ℝ) < 2)]
    have hcast : ((keyNumber n1 o1 : ℤ) : ℝ) < ((keyNumber n2 o2 : ℤ) : ℝ) := by
      exact_mod_cast hk
    linarith

/-- Witness for C5: C2 is strictly below C#2. -/
theorem getFrequency_spec_witness :
    getFrequency "C" 2 < getFrequency "C#" 2 :=
  getFrequency_spec.2 "C" 2 "C#" 2 (by decide) (by decide) (by decide)

/-- C6: in any reachable state, starting "C4" twice (frequencies f then f2)
leaves exactly one active voice under "C4", carrying f2, with
currentFreq = f2; and every reachable state has at most one voice per note
identifier. -/
theorem active_voice_unique :
    (∀ (ops : List Op) (note : String) (f f2 : ℚ),
      ((startNote note f2 (startNote note f (runOps ops))).activeNotes.filter
          (fun p => p.1 == note)).length = 1 ∧
      objGet (startNote note f2 (startNote note f (runOps ops))).activeNotes
          note = some ⟨f2⟩ ∧
      (startNote note f2 (startNote note f (runOps ops))).currentFreq
        = some f2) ∧
    (∀ (ops : List Op) (note : String),
      ((runOps ops).activeNotes.filter (fun p => p.1 == note)).length ≤ 1) := by
  constructor
  · intro ops note f f2
    have hn : keysNodup (runOps ops).activeNotes := keysNodup_runOps ops
    have hn1 : keysNodup (startNote note f (runOps ops)).activeNotes := by
      simpa [startNote, setVars] using
        keysNodup_objSet (runOps ops).activeNotes note ⟨f⟩ hn
    refine ⟨?_, ?_, rfl⟩
    · simpa [startNote, setVars] using
        countKey_objSet (startNote note f (runOps ops)).activeNotes note ⟨f2⟩ hn1
    · simpa [startNote, setVars] using
        objGet_objSet (startNote note f (runOps ops)).activeNotes note ⟨f2⟩
  · intro ops note
    exact countKey_le_one _ note (keysNodup_runOps ops)

/-- C7: when stopNote removes the last active voice, currentFreq becomes
absent and targetAmp becomes 0, while lastFreq is unchanged (and hence
still nonzero if it was nonzero). -/
theorem stop_last_voice_state (s : AudioState) (note : String) (v : Voice)
    (hactive : objGet s.activeNotes note = some v)
    (hlast : objDelete s.activeNotes note = []) :
    (stopNote note s).currentFreq = none ∧
    (stopNote note s).targetAmp = 0 ∧
    (stopNote note s).lastFreq = s.lastFreq ∧
    (s.lastFreq ≠ 0 → (stopNote note s).lastFreq ≠ 0) := by
  simp [stopNote, hactive, hlast, clearVars]

/-- Witness for C7: stopping "C4" when it is the only active voice. -/
theorem stop_last_voice_state_witness :
    (stopNote "C4" (startNote "C4" 440 initState)).currentFreq = none ∧
    (stopNote "C4" (startNote "C4" 440 initState)).targetAmp = 0 ∧
    (stopNote "C4" (startNote "C4" 440 initState)).lastFreq
      = (startNote "C4" 440 initState).lastFreq ∧
    ((startNote "C4" 440 initState).lastFreq ≠ 0 →
      (stopNote "C4" (startNote "C4" 440 initState)).lastFreq ≠ 0) :=
  stop_last_voice_state (startNote "C4" 440 initState) "C4" ⟨440⟩
    (by decide) (by decide)

/-- C8: stopNote on a note identifier with no active voice leaves the whole
state (active voices and shared playback state) unchanged. -/
theorem stopNote_inactive_noop (s : AudioState) (note : String)
    (h : objGet s.activeNotes note = none) : stopNote note s = s := by
  simp [stopNote, h]

/-- Witness for C8: stopping "C4" in the initial (empty) state. -/
theorem stopNote_inactive_noop_witness : stopNote "C4" initState = initState :=
  stopNote_inactive_noop initState "C4" (by decide)

/-- C9: from the initial state (currentFreq absent, lastFreq 0), every
reachable state satisfies: whenever currentFreq is present it equals
lastFreq. -/
theorem currentFreq_matches_lastFreq :
    initState.currentFreq = none ∧ initState.lastFreq = 0 ∧
    ∀ (ops : List Op) (f : ℚ),
      (runOps ops).currentFreq = some f → (runOps ops).lastFreq = f := by
  refine ⟨rfl, rfl, ?_⟩
  have main : ∀ (ops : List Op) (s : AudioState),
      (∀ f, s.currentFreq = some f → s.lastFreq = f) →
      ∀ f, (ops.foldl applyOp s).currentFreq = some f →
        (ops.foldl applyOp s).lastFreq = f := by
    intro ops
    induction ops with
    | nil => intro s h; simpa using h
    | cons op rest ih => intro s h; exact ih _ (freqInv_applyOp s op h)
  intro ops f
  exact main ops initState (by intro f hf; simp [initState] at hf) f

/-- Witness for C9: after one startNote the invariant gives lastFreq 440. -/
theorem currentFreq_matches_lastFreq_witness :
    (runOps [Op.start "C4" 440]).lastFreq = 440 :=
  currentFreq_matches_lastFreq.2.2 [Op.start "C4" 440] 440 (by decide)

/-- C10: playRecording on an empty recording returns immediately — the
playing-recorded flag is untouched, no events and no completion are
scheduled, and the callback is never invoked. -/
theorem playRecording_empty_noop (melody : List Char) (flag : Bool) :
    playRecording melody [] flag =
      ⟨false, [], [], none, flag, flag, none⟩ := rfl

end ScillyScope
